import Mathlib

/-!
# Verification of the stealer-log parser core

Shallow embedding of `stealer_parser` (files `processing.py`, `main.py`,
`models/archive_wrapper.py`) and proofs about the claims on classification,
victim grouping, merge/retention/fingerprint rules, text decoding, password
retry and success/failure bucketing.

Conventions:
* Python strings are Lean `String` / `List Char`; only ASCII case folding and
  ASCII word characters are modelled (every concrete input used is ASCII).
* Machine-level effects (archive reads, the field parsers that live outside
  this repository) are either parameters of the model (`ParseEnv`) or are
  modelled from the spec, as marked in the doc comments.
-/

namespace StealerParser

/-! ## Log file data model (`processing.py`, lines 41-55) -/

/-- `LogFileType` from `processing.py`: the four classification categories. -/
inductive LogFileType where
  | PASSWORDS
  | SYSTEM
  | IP
  | COPYRIGHT
deriving DecidableEq, Repr

/-- `LogFile` dataclass from `processing.py`. -/
structure LogFile where
  type : LogFileType
  filename : String
  system_dir : String
deriving DecidableEq, Repr

/-! ## `get_system_dir` (`processing.py`, lines 58-68)

Python's `str.find(ch, start)` returns the least absolute index `≥ start`
of `ch`, and `-1` when there is none. -/

/-- Python `filepath.find(ch, start)`: least index `≥ start` holding `ch`,
`-1` if absent. -/
def pyFindFrom (s : String) (ch : Char) (start : Nat) : Int :=
  match (s.toList.drop start).findIdx? (· == ch) with
  | some k => ((k + start : Nat) : Int)
  | none => -1

/-- `get_system_dir` from `processing.py`:
`start = filepath.find("/") + 1`; if `start > 0` then look for a second
separator; if it exists strictly after `start` return the slice between the
two separators, else return the prefix up to and including the first
separator; with no separator return the whole path. -/
def get_system_dir (filepath : String) : String :=
  let start : Int := pyFindFrom filepath '/' 0 + 1
  if 0 < start then
    let stop : Int := pyFindFrom filepath '/' start.toNat
    if start < stop then
      String.mk ((filepath.toList.drop start.toNat).take (stop - start).toNat)
    else
      String.mk (filepath.toList.take start.toNat)
  else filepath

/-! ## The filename regex (`processing.py`, lines 26-38)

`FILENAMES_REGEX = (?i).*((password(?!cracker))|(system|information|userinfo)|(\bip)|(credits|copyright|read)).*\.txt`
used through `re.search`.

Semantics of `re.search` for this pattern, modelled below:
* matching is case-insensitive (`(?i)`); we fold ASCII case;
* `.` never matches a newline;
* the keyword alternatives are pairwise distinguishable by their first two
  characters, so at each position at most one alternative can match;
* a *viable* position is a position where one alternative matches and some
  later `".txt"` occurrence is reachable without crossing a newline;
* the backtracking engine starts at the leftmost possible start and the
  leading greedy `.*` then selects the *rightmost* viable position on the
  line of the first viable position; the matched group is the alternative
  at that position. -/

/-- `kw` occurs in `l` starting at index `i`. -/
def strAt (l : List Char) (i : Nat) (kw : List Char) : Bool :=
  kw.isPrefixOf (l.drop i)

/-- ASCII word character (`\w`); Python's `\b` is Unicode-aware but every
input considered here is ASCII. -/
def isWordChar (c : Char) : Bool :=
  ('a' ≤ c && c ≤ 'z') || ('A' ≤ c && c ≤ 'Z') || ('0' ≤ c && c ≤ '9') || c == '_'

/-- Which alternation group (2-5) matches at position `i` of the lowercased
name, and the length it consumes.  Group 2: `password(?!cracker)`;
group 3: `system|information|userinfo`; group 4: `\bip`;
group 5: `credits|copyright|read`. -/
def kwAt (lc : List Char) (i : Nat) : Option (Nat × Nat) :=
  if strAt lc i "password".toList then
    if strAt lc (i + 8) "cracker".toList then none else some (2, 8)
  else if strAt lc i "system".toList then some (3, 6)
  else if strAt lc i "information".toList then some (3, 11)
  else if strAt lc i "userinfo".toList then some (3, 8)
  else if strAt lc i "ip".toList
      && (decide (i = 0) || !isWordChar (lc.getD (i - 1) ' ')) then some (4, 2)
  else if strAt lc i "credits".toList then some (5, 7)
  else if strAt lc i "copyright".toList then some (5, 9)
  else if strAt lc i "read".toList then some (5, 4)
  else none

/-- The suffix of the name after the keyword admits `.*\.txt`: some `".txt"`
occurrence is reachable without crossing a newline. -/
def tailOk : List Char → Bool
  | [] => false
  | c :: rest =>
    strAt (c :: rest) 0 ".txt".toList || (c != '\n' && tailOk rest)

/-- Group matched when the whole pattern can match with the alternation
placed at position `i` (`none` if it cannot). -/
def viableG (lc : List Char) (i : Nat) : Option Nat :=
  match kwAt lc i with
  | some (g, len) => if tailOk (lc.drop (i + len)) then some g else none
  | none => none

/-- All viable alternation positions, in increasing order. -/
def viablePositions (lc : List Char) : List Nat :=
  (List.range lc.length).filter (fun i => (viableG lc i).isSome)

/-- Index one past the last character of the line containing `i`. -/
def lineEndFrom (lc : List Char) (i : Nat) : Nat :=
  i + ((lc.drop i).takeWhile (· != '\n')).length

/-- The group of the final match of `re.search(FILENAMES_PATTERN, name)` on
the lowercased name (`none` when the regex does not match): the leading
greedy `.*` puts the alternation at the rightmost viable position on the
line of the first viable position. -/
def chosenGroup (lc : List Char) : Option Nat :=
  match viablePositions lc with
  | [] => none
  | i0 :: rest =>
    let cands := (i0 :: rest).filter (· < lineEndFrom lc i0)
    match cands.getLast? with
    | some i => viableG lc i
    | none => viableG lc i0

/-- ASCII lowercase of a name, as a char list. -/
def lowerList (name : String) : List Char :=
  name.toList.map Char.toLower

/-! ## `generate_file_list` (`processing.py`, lines 71-92)

When the regex matches, the Python code assigns `log_type` in one of four
branches and then appends `LogFile(log_type, name, get_system_dir(name))`.
When the match went through group 3 but the name contains `"#"`, *no*
branch assigns `log_type` and the append raises `UnboundLocalError`;
this is the `.error ()` case below. -/

/-- Classification of one entry name: `.ok none` when the regex does not
match (entry dropped), `.ok (some f)` when a branch fires, `.error ()` for
the unbound-`log_type` crash (group 3 matched and `"#" ∈ name`). -/
def classifyName (name : String) : Except Unit (Option LogFile) :=
  match chosenGroup (lowerList name) with
  | none => .ok none
  | some 2 => .ok (some ⟨.PASSWORDS, name, get_system_dir name⟩)
  | some 3 =>
    if name.toList.contains '#' then .error ()
    else .ok (some ⟨.SYSTEM, name, get_system_dir name⟩)
  | some 4 => .ok (some ⟨.IP, name, get_system_dir name⟩)
  | some 5 => .ok (some ⟨.COPYRIGHT, name, get_system_dir name⟩)
  | some _ => .ok none

/-- The `for name in sorted(...)` loop body applied to an already-sorted
list of names. -/
def classifyAll : List String → Except Unit (List LogFile)
  | [] => .ok []
  | n :: rest =>
    match classifyName n with
    | .error e => .error e
    | .ok none => classifyAll rest
    | .ok (some f) => (classifyAll rest).map (f :: ·)

/-- Code-point lexicographic `≤` on char lists: Python's `str` order. -/
def lexLe : List Char → List Char → Bool
  | [], _ => true
  | _ :: _, [] => false
  | a :: as, b :: bs =>
    if a.val < b.val then true
    else if b.val < a.val then false
    else lexLe as bs

/-- Stable insertion into a sorted list (the order is the code-point
lexicographic order Python uses on `str`). -/
def insertSorted (x : String) : List String → List String
  | [] => [x]
  | y :: t => if lexLe x.toList y.toList then x :: y :: t else y :: insertSorted x t

/-- Python `sorted` on strings: a stable sort by the code-point
lexicographic order, here as insertion sort. -/
def pySorted (l : List String) : List String :=
  l.foldr insertSorted []

/-- `generate_file_list`: sort the entry names (Python `sorted`, i.e. stable
lexicographic sort on code points) and classify each in order. -/
def generate_file_list (names : List String) : Except Unit (List LogFile) :=
  classifyAll (pySorted names)

/-! ## Victim grouping (`processing.py`, lines 124-191)

`process_system_dir` walks the classified list from its first element,
breaking at the first file whose `system_dir` differs from the first file's,
and returns the number of files walked; `process_archive` then continues at
`files[count:]`.  So each call consumes the maximal prefix sharing the first
file's `system_dir`. -/

/-- The maximal prefix of `f :: rest` whose `system_dir` equals
`f.system_dir`: the set of files one `process_system_dir` call consumes. -/
def runOf (f : LogFile) (rest : List LogFile) : List LogFile :=
  f :: rest.takeWhile (fun x => x.system_dir == f.system_dir)

/-- The partition of the classified list produced by the
`while index < len(files)` loop of `process_archive`: successive maximal
runs of equal `system_dir`. -/
def groupVictims : List LogFile → List (List LogFile)
  | [] => []
  | f :: rest =>
    runOf f rest ::
      groupVictims (rest.dropWhile (fun x => x.system_dir == f.system_dir))
termination_by l => l.length
decreasing_by
  simp only [List.length_cons]
  exact Nat.lt_succ_of_le (List.dropWhile_sublist _).length_le

/-! ## Per-group parsing state (`processing.py`, lines 95-167)

The repository's `models/leak.py` and `parsing/` package are not part of the
sources here; the record types and the three field parsers are modelled from
the spec (§3, §4.4), while all control flow below is translated from
`processing.py`. -/

/-- Modelled from the spec (§3 CredentialEntry; `models/leak.py` is not in
the sources): one credential triple. -/
structure Credential where
  host : String
  login : String
  secret : String
deriving DecidableEq, Repr

/-- Modelled from the spec (§3 SystemInfo; `models/leak.py` is not in the
sources): an attribute record.  `ip_address` is `""` when absent; `attrs`
are the values of the remaining attributes (`""` for an empty one), so
Python's `any(system.__dict__.values())` is "some value is non-empty". -/
structure System where
  ip_address : String
  attrs : List String
deriving DecidableEq, Repr

/-- Python `any(list(system.__dict__.values()))`. -/
def System.anyAttr (s : System) : Bool :=
  (s.ip_address != "") || s.attrs.any (· != "")

/-- Modelled from the spec (§3 VictimRecord; `models/leak.py` is not in the
sources): per-victim accumulator `SystemData()` with optional system record,
ordered credentials and optional stealer family name. -/
structure SystemData where
  system : Option System := none
  credentials : List Credential := []
  stealer_name : Option String := none
deriving DecidableEq, Repr

/-- Modelled from the spec (§3; `models/leak.py` is not in the sources):
`SystemData.add_stealer_name` attaches the family name to the record. -/
def SystemData.add_stealer_name (sd : SystemData) (n : String) : SystemData :=
  { sd with stealer_name := some n }

/-- The external collaborators `process_system_dir` calls, as parameters:
`read` is `archive.read_file` (`none` models a read error that lines
149-153 catch and skip); `search_stealer_name`, `parse_passwords` and
`parse_system` live outside these sources (spec §4.4-§4.5: lenient parsers
whose failures contribute nothing, so they are total functions);
`extract_ip` is the IPExtractor used by `retrieve_ip_only`. -/
structure ParseEnv where
  read : String → Option String
  search_stealer_name : String → Option String
  parse_passwords : String → List Credential
  parse_system : String → Option System
  extract_ip : String → Option String

/-- Modelled from the spec (§4.3-§4.4, merge rule §3; `parsing/` is not in
the sources): `retrieve_ip_only(text, system_data)` extracts the first IP of
the text and stores it in the group's `SystemData` — creating a system
record holding only the IP when none exists, filling an empty IP otherwise —
but never overwrites an already-present non-empty IP (the SystemInfo IP wins
and the IPOnly IP is discarded). -/
def retrieve_ip_only (env : ParseEnv) (text : String) (sd : SystemData) :
    SystemData :=
  match env.extract_ip text with
  | none => sd
  | some ip =>
    match sd.system with
    | none => { sd with system := some ⟨ip, []⟩ }
    | some s =>
      if s.ip_address != "" then sd
      else { sd with system := some { s with ip_address := ip } }

/-- `parse_file` from `processing.py` (lines 95-121): dispatch on the file
type; for SYSTEM files a freshly parsed record keeps an IP already present
in the group's state. -/
def parse_file (env : ParseEnv) (file : LogFile) (text : String)
    (sd : SystemData) : SystemData :=
  match file.type with
  | .PASSWORDS =>
    { sd with credentials := sd.credentials ++ env.parse_passwords text }
  | .SYSTEM =>
    match env.parse_system text with
    | none => sd
    | some system =>
      let system :=
        match sd.system with
        | some old =>
          if old.ip_address != "" then { system with ip_address := old.ip_address }
          else system
        | none => system
      { sd with system := some system }
  | .IP => retrieve_ip_only env text sd
  | .COPYRIGHT => sd

/-- One iteration of the `for file in files` loop of `process_system_dir`
(lines 141-153): read the file (skipping it on a caught read error), take
the stealer fingerprint from the first text when none was found yet, then
parse. -/
def processRunStep (env : ParseEnv) (acc : Option String × SystemData)
    (file : LogFile) : Option String × SystemData :=
  match env.read file.filename with
  | none => acc
  | some text =>
    let sn := match acc.1 with
      | some s => some s
      | none => env.search_stealer_name text
    (sn, parse_file env file text acc.2)

/-- The full walk of one victim run: fingerprint state and `SystemData`
accumulated over the run's files in order. -/
def processRun (env : ParseEnv) (run : List LogFile) :
    Option String × SystemData :=
  run.foldl (processRunStep env) (none, {})

/-- The retention test of lines 160-164:
`system_data.system and any(...) or system_data.credentials`. -/
def retainedB (sd : SystemData) : Bool :=
  (match sd.system with
   | some s => s.anyAttr
   | none => false) || !sd.credentials.isEmpty

/-- `process_system_dir`'s effect on the leak for one run (lines 157-165):
attach the stealer name when credentials were found and a fingerprint
matched, then append the record only when retained. -/
def psdRecord (env : ParseEnv) (run : List LogFile) : Option SystemData :=
  let p := processRun env run
  let sd := match p.1 with
    | some n => if !p.2.credentials.isEmpty then p.2.add_stealer_name n else p.2
    | none => p.2
  if retainedB sd then some sd else none

/-- `process_archive`'s while loop (lines 176-180): the ordered list of
retained victim records. -/
def processGroups (env : ParseEnv) : List LogFile → List SystemData
  | [] => []
  | f :: rest =>
    let tail :=
      processGroups env (rest.dropWhile (fun x => x.system_dir == f.system_dir))
    match psdRecord env (runOf f rest) with
    | some sd => sd :: tail
    | none => tail
termination_by l => l.length
decreasing_by
  simp only [List.length_cons]
  exact Nat.lt_succ_of_le (List.dropWhile_sublist _).length_le

/-! ## Lemmas about the grouping loop -/

/-- The group key of a run: the `system_dir` of its first file. -/
def runKey (r : List LogFile) : Option String :=
  r.head?.map (·.system_dir)

theorem dropWhile_head_not {α : Type} (p : α → Bool) :
    ∀ (l : List α) (g : α) (t : List α), l.dropWhile p = g :: t → p g = false := by
  intro l
  induction l with
  | nil => intro g t h; simp [List.dropWhile] at h
  | cons a l ih =>
    intro g t h
    by_cases hp : p a
    · rw [List.dropWhile_cons_of_pos hp] at h
      exact ih g t h
    · rw [List.dropWhile_cons_of_neg hp] at h
      cases h
      simpa using hp

theorem groupVictims_join (l : List LogFile) : (groupVictims l).flatten = l := by
  induction l using groupVictims.induct with
  | case1 => simp [groupVictims]
  | case2 f rest ih =>
    rw [groupVictims, List.flatten_cons, ih, runOf, List.cons_append,
      List.takeWhile_append_dropWhile]

theorem mem_groupVictims (l : List LogFile) (r : List LogFile)
    (h : r ∈ groupVictims l) : ∃ f rest, r = runOf f rest := by
  induction l using groupVictims.induct with
  | case1 => simp [groupVictims] at h
  | case2 f rest ih =>
    rw [groupVictims, List.mem_cons] at h
    rcases h with h | h
    · exact ⟨f, rest, h⟩
    · exact ih h

theorem mem_runOf_key (f : LogFile) (rest : List LogFile) (x : LogFile)
    (hx : x ∈ runOf f rest) : x.system_dir = f.system_dir := by
  rw [runOf, List.mem_cons] at hx
  rcases hx with rfl | hx
  · rfl
  · have := List.mem_takeWhile_imp hx
    simpa using this

theorem groupVictims_chain (l : List LogFile) :
    List.Chain' (fun r₁ r₂ => runKey r₁ ≠ runKey r₂) (groupVictims l) := by
  induction l using groupVictims.induct with
  | case1 => simp [groupVictims]
  | case2 f rest ih =>
    rw [groupVictims]
    refine List.chain'_cons'.mpr ⟨?_, ih⟩
    intro r hr
    rcases hd : rest.dropWhile (fun x => x.system_dir == f.system_dir) with
      _ | ⟨g, t⟩
    · rw [hd] at hr; simp [groupVictims] at hr
    · rw [hd] at hr
      rw [groupVictims] at hr
      simp only [List.head?_cons, Option.mem_def, Option.some_inj] at hr
      subst hr
      have hg := dropWhile_head_not _ rest g t hd
      simp only [runOf, runKey, List.head?_cons, Option.map_some', ne_eq,
        Option.some_inj]
      intro hfg
      rw [hfg] at hg
      simp at hg

theorem groupVictims_heads_sublist (l : List LogFile) :
    ((groupVictims l).filterMap List.head?).Sublist l := by
  induction l using groupVictims.induct with
  | case1 => simp [groupVictims]
  | case2 f rest ih =>
    rw [groupVictims]
    simp only [List.filterMap_cons, runOf, List.head?_cons]
    refine List.Sublist.cons₂ f ?_
    exact ih.trans (List.dropWhile_sublist _)

/-! ## Claim C1 -/

/-- **C1**: for every sorted list of entry paths, classification followed by
grouping partitions the classified subsequence into maximal contiguous runs
of equal group key: concatenating the runs in order reproduces the
classified sequence exactly, every run is non-empty and uniform in its
key, adjacent runs have different keys (maximality), and the sequence of
each run's first classified file is a sublist of the classified sequence,
so victim records appear in the sorted order of their group's first file. -/
theorem c1_classify_group_partition (names : List String)
    (files : List LogFile) (_h : generate_file_list names = .ok files) :
    (groupVictims files).flatten = files ∧
    (∀ r ∈ groupVictims files, r ≠ [] ∧ ∀ x ∈ r, runKey r = some x.system_dir) ∧
    List.Chain' (fun r₁ r₂ => runKey r₁ ≠ runKey r₂) (groupVictims files) ∧
    ((groupVictims files).filterMap List.head?).Sublist files := by
  refine ⟨groupVictims_join files, ?_, groupVictims_chain files,
    groupVictims_heads_sublist files⟩
  intro r hr
  obtain ⟨f, rest, rfl⟩ := mem_groupVictims files r hr
  refine ⟨by simp [runOf], ?_⟩
  intro x hx
  simp [runKey, runOf, mem_runOf_key f rest x hx]

/-- Witness for C1 on the spec's end-to-end scenario entry list. -/
theorem c1_classify_group_partition_witness :
    (groupVictims
        [⟨.COPYRIGHT, "Alice/Copyright.txt", "Alice/"⟩,
         ⟨.IP, "Alice/ip.txt", "Alice/"⟩,
         ⟨.PASSWORDS, "Bob/Passwords.txt", "Bob/"⟩,
         ⟨.SYSTEM, "Bob/System.txt", "Bob/"⟩]).flatten =
      [⟨.COPYRIGHT, "Alice/Copyright.txt", "Alice/"⟩,
       ⟨.IP, "Alice/ip.txt", "Alice/"⟩,
       ⟨.PASSWORDS, "Bob/Passwords.txt", "Bob/"⟩,
       ⟨.SYSTEM, "Bob/System.txt", "Bob/"⟩] ∧
    List.Chain' (fun r₁ r₂ => runKey r₁ ≠ runKey r₂)
      (groupVictims
        [⟨.COPYRIGHT, "Alice/Copyright.txt", "Alice/"⟩,
         ⟨.IP, "Alice/ip.txt", "Alice/"⟩,
         ⟨.PASSWORDS, "Bob/Passwords.txt", "Bob/"⟩,
         ⟨.SYSTEM, "Bob/System.txt", "Bob/"⟩]) ∧
    ((groupVictims
        [⟨.COPYRIGHT, "Alice/Copyright.txt", "Alice/"⟩,
         ⟨.IP, "Alice/ip.txt", "Alice/"⟩,
         ⟨.PASSWORDS, "Bob/Passwords.txt", "Bob/"⟩,
         ⟨.SYSTEM, "Bob/System.txt", "Bob/"⟩]).filterMap List.head?).Sublist
      [⟨.COPYRIGHT, "Alice/Copyright.txt", "Alice/"⟩,
       ⟨.IP, "Alice/ip.txt", "Alice/"⟩,
       ⟨.PASSWORDS, "Bob/Passwords.txt", "Bob/"⟩,
       ⟨.SYSTEM, "Bob/System.txt", "Bob/"⟩] := by
  have h := c1_classify_group_partition
    ["Bob/Passwords.txt", "Bob/System.txt", "Alice/ip.txt",
     "Alice/Copyright.txt"] _ (by rfl)
  exact ⟨h.1, h.2.2.1, h.2.2.2⟩

/-! ## Claim C2 -/

/-- **C2** (code bug): classification is *not* total: on the path
`"#system.txt"` — a `.txt` name containing `"system"` and a `"#"` but no
other keyword — the regex matches through group 3, the `"#"` test skips the
`SYSTEM` branch, no other branch fires, and the append of
`LogFile(log_type, ...)` raises `UnboundLocalError` instead of dropping
the entry.  The embedded `generate_file_list` reports this crash. -/
theorem c2_classification_crashes_on_hash_system :
    generate_file_list ["#system.txt"] = .error () := by rfl

/-! ## Claim C3 -/

/-- The last element of a strictly increasing list is its maximum. -/
theorem getLast?_eq_of_max :
    ∀ (l : List Nat), l.Pairwise (· < ·) → ∀ i, i ∈ l → (∀ x ∈ l, x ≤ i) →
      l.getLast? = some i := by
  intro l
  induction l with
  | nil => intro _ i hi _; simp at hi
  | cons a t ih =>
    intro hp i hi hmax
    cases t with
    | nil =>
      simp only [List.mem_singleton] at hi
      simp [hi]
    | cons b t2 =>
      have hab : a < b := (List.pairwise_cons.mp hp).1 b (by simp)
      have hib : i ∈ b :: t2 := by
        rcases List.mem_cons.mp hi with rfl | h
        · have := hmax b (by simp)
          omega
        · exact h
      rw [List.getLast?_cons_cons]
      exact ih (List.pairwise_cons.mp hp).2 i hib
        (fun x hx => hmax x (List.mem_cons_of_mem a hx))

theorem viablePositions_pairwise (lc : List Char) :
    (viablePositions lc).Pairwise (· < ·) :=
  (List.pairwise_lt_range _).filter _

theorem mem_viablePositions {lc : List Char} {i : Nat}
    (hlen : i < lc.length) (hv : (viableG lc i).isSome) :
    i ∈ viablePositions lc := by
  rw [viablePositions, List.mem_filter]
  exact ⟨List.mem_range.mpr hlen, hv⟩

/-- A viable position is inside the list (the keyword needs characters). -/
theorem viableG_lt_length {lc : List Char} {i : Nat} {g : Nat}
    (h : viableG lc i = some g) : i < lc.length := by
  rw [viableG] at h
  rcases hk : kwAt lc i with _ | ⟨gr, len⟩
  · rw [hk] at h; exact absurd h (by simp)
  · by_contra hge
    push_neg at hge
    have hdrop : lc.drop i = [] := List.drop_eq_nil_of_le hge
    have : kwAt lc i = none := by
      rw [kwAt]
      simp [strAt, hdrop, List.isPrefixOf]
    rw [this] at hk
    exact absurd hk (by simp)

/-- With no newline in the name, the first viable position's line extends to
the end, so every viable position is a candidate for the greedy `.*`. -/
theorem lineEndFrom_of_no_newline {lc : List Char} (hnl : '\n' ∉ lc)
    (i : Nat) : lineEndFrom lc i = i + (lc.length - i) := by
  rw [lineEndFrom]
  congr 1
  rw [List.takeWhile_eq_self_iff.mpr, List.length_drop]
  intro c hc
  have : c ∈ lc := List.mem_of_mem_drop hc
  simp only [bne_iff_ne, ne_eq]
  rintro rfl
  exact hnl this

/-- **C3 (amended)**: classification is decided by the *rightmost* viable
keyword occurrence (the leading greedy `.*` of the regex), not by rule
priority.  A `.txt`-suffixed name containing `"password"` not followed by
`"cracker"` is classified Credentials exactly when that occurrence is the
last viable one; here: if position `i` is viable for the password rule and
no later position is viable, the file is classified `PASSWORDS`. -/
theorem c3_amended_rightmost_password_wins (name : String) (i : Nat)
    (hnl : '\n' ∉ lowerList name)
    (hv : viableG (lowerList name) i = some 2)
    (hmax : ∀ k, k < (lowerList name).length →
      (viableG (lowerList name) k).isSome → k ≤ i) :
    classifyName name = .ok (some ⟨.PASSWORDS, name, get_system_dir name⟩) := by
  have hlen : i < (lowerList name).length := viableG_lt_length hv
  have hmem : i ∈ viablePositions (lowerList name) :=
    mem_viablePositions hlen (by rw [hv]; rfl)
  have hmaxvp : ∀ x ∈ viablePositions (lowerList name), x ≤ i := by
    intro x hx
    rw [viablePositions, List.mem_filter, List.mem_range] at hx
    exact hmax x hx.1 hx.2
  have hchosen : chosenGroup (lowerList name) = some 2 := by
    rw [chosenGroup]
    rcases hvp : viablePositions (lowerList name) with _ | ⟨i0, rest⟩
    · rw [hvp] at hmem; simp at hmem
    · have hi0 : i0 ∈ viablePositions (lowerList name) := by rw [hvp]; simp
      have hfilter :
          (i0 :: rest).filter (· < lineEndFrom (lowerList name) i0) =
            i0 :: rest := by
        apply List.filter_eq_self.mpr
        intro x hx
        rw [← hvp] at hx
        have hxlen : x < (lowerList name).length := by
          rw [viablePositions, List.mem_filter, List.mem_range] at hx
          exact hx.1
        have hi0len : i0 < (lowerList name).length := by
          rw [viablePositions, List.mem_filter, List.mem_range] at hi0
          exact hi0.1
        rw [lineEndFrom_of_no_newline hnl]
        simp only [decide_eq_true_eq]
        omega
      have hlast : (i0 :: rest).getLast? = some i := by
        rw [← hvp]
        exact getLast?_eq_of_max _ (viablePositions_pairwise _) i hmem hmaxvp
      dsimp only
      rw [hfilter, hlast]
      exact hv
  rw [classifyName, hchosen]

/-- Witness for the amended C3: in `"readpassword.txt"` the lower-priority
keyword `"read"` occurs *earlier*, so the password rule still wins. -/
theorem c3_amended_rightmost_password_wins_witness :
    classifyName "readpassword.txt" =
      .ok (some ⟨.PASSWORDS, "readpassword.txt", "readpassword.txt"⟩) :=
  c3_amended_rightmost_password_wins "readpassword.txt" 4 (by decide)
    (by decide) (by decide)

/-- **C3 (counterexample)**: the claim as stated fails: in
`"passwordread.txt"` the name contains `"password"` (not immediately
followed by `"cracker"`) and ends in `.txt`, yet the later `"read"`
occurrence wins and the file is classified `COPYRIGHT` (FingerprintText),
not `PASSWORDS`. -/
theorem c3_counterexample_password_loses :
    classifyName "passwordread.txt" =
      .ok (some ⟨.COPYRIGHT, "passwordread.txt", "passwordread.txt"⟩) ∧
    classifyName "passwordread.txt" ≠
      .ok (some ⟨.PASSWORDS, "passwordread.txt", "passwordread.txt"⟩) := by
  refine ⟨rfl, ?_⟩
  intro h
  rw [show classifyName "passwordread.txt" =
      .ok (some ⟨.COPYRIGHT, "passwordread.txt", "passwordread.txt"⟩)
    from rfl] at h
  simp at h

/-! ## Claim C4 -/

theorem findIdx?_slash_none :
    ∀ (l : List Char) (i : Nat), (∀ c ∈ l, (c == '/') = false) →
      List.findIdx? (· == '/') l i = none := by
  intro l
  induction l with
  | nil => intro i _; simp
  | cons a t ih =>
    intro i h
    rw [List.findIdx?_cons, h a (by simp)]
    simp only [Bool.false_eq_true, if_false]
    exact ih (i + 1) (fun c hc => h c (List.mem_cons_of_mem a hc))

theorem findIdx?_slash_append :
    ∀ (l : List Char) (r : List Char) (i : Nat),
      (∀ c ∈ l, (c == '/') = false) →
      List.findIdx? (· == '/') (l ++ '/' :: r) i = some (i + l.length) := by
  intro l
  induction l with
  | nil => intro r i _; simp [List.findIdx?_cons]
  | cons a t ih =>
    intro r i h
    rw [List.cons_append, List.findIdx?_cons, h a (by simp)]
    simp only [Bool.false_eq_true, if_false]
    rw [ih r (i + 1) (fun c hc => h c (List.mem_cons_of_mem a hc))]
    simp only [List.length_cons, Option.some_inj]
    omega

/-- No-slash characterization usable on `String.toList`. -/
theorem toList_no_slash {s : String} (h : '/' ∉ s.toList) :
    ∀ c ∈ s.toList, (c == '/') = false := by
  intro c hc
  simp only [beq_eq_false_iff_ne, ne_eq]
  rintro rfl
  exact h hc

/-- **C4 (counterexample)**: for the two-separator path `"a/b/c.txt"` the
code returns the *second* path segment `"b"`, not the first segment `"a"`
the claim names. -/
theorem c4_counterexample_second_segment :
    get_system_dir "a/b/c.txt" = "b" ∧ get_system_dir "a/b/c.txt" ≠ "a" := by
  exact ⟨rfl, by decide⟩

/-- **C4 (amended)**: the group key is (1) the whole relative path when it
has no separator; (2) the prefix up to and *including* the first separator
when no second separator strictly follows the first-segment boundary; and
(3) the *second* path segment — the slice between the first and second
separators — when the second separator exists and the segment between them
is non-empty. -/
theorem c4_amended_group_key (a b c p : String)
    (hp : '/' ∉ p.toList) (ha : '/' ∉ a.toList) (hb : '/' ∉ b.toList)
    (hbne : b ≠ "") :
    get_system_dir p = p ∧
    get_system_dir (a ++ "/" ++ b) = a ++ "/" ∧
    get_system_dir (a ++ "/" ++ b ++ "/" ++ c) = b := by
  refine ⟨?_, ?_, ?_⟩
  · rw [get_system_dir]
    have h0 : pyFindFrom p '/' 0 = -1 := by
      rw [pyFindFrom, List.drop_zero, findIdx?_slash_none _ _ (toList_no_slash hp)]
    rw [h0]
    norm_num
  · have hdata : (a ++ "/" ++ b).toList = a.toList ++ '/' :: b.toList := by
      show (a ++ "/" ++ b).data = a.data ++ '/' :: b.data
      simp [String.data_append, List.append_assoc]
    rw [get_system_dir]
    have h0 : pyFindFrom (a ++ "/" ++ b) '/' 0 = (a.toList.length : Int) := by
      rw [pyFindFrom, hdata, List.drop_zero,
        findIdx?_slash_append _ _ _ (toList_no_slash ha)]
      simp
    rw [h0]
    have hpos : (0 : Int) < (a.toList.length : Int) + 1 := by positivity
    rw [if_pos hpos]
    have htoNat : ((a.toList.length : Int) + 1).toNat = a.toList.length + 1 := by
      omega
    have hdrop : (a ++ "/" ++ b).toList.drop (a.toList.length + 1) = b.toList := by
      rw [hdata, show a.toList ++ '/' :: b.toList =
        (a.toList ++ ['/']) ++ b.toList by simp,
        show a.toList.length + 1 = (a.toList ++ ['/']).length by simp,
        List.drop_left]
    have h1 : pyFindFrom (a ++ "/" ++ b) '/' ((a.toList.length : Int) + 1).toNat
        = -1 := by
      rw [pyFindFrom, htoNat, hdrop,
        findIdx?_slash_none _ _ (toList_no_slash hb)]
    rw [h1]
    rw [if_neg (by omega)]
    rw [htoNat]
    have htake : (a ++ "/" ++ b).toList.take (a.toList.length + 1) =
        (a ++ "/").toList := by
      rw [hdata, show a.toList ++ '/' :: b.toList =
        (a.toList ++ ['/']) ++ b.toList by simp,
        show a.toList.length + 1 = (a.toList ++ ['/']).length by simp,
        List.take_left]
      show _ = (a ++ "/").data
      simp [String.data_append]
    rw [htake]
    rfl
  · have hdata : (a ++ "/" ++ b ++ "/" ++ c).toList =
        a.toList ++ '/' :: (b.toList ++ '/' :: c.toList) := by
      show (a ++ "/" ++ b ++ "/" ++ c).data =
        a.data ++ '/' :: (b.data ++ '/' :: c.data)
      simp [String.data_append, List.append_assoc]
    rw [get_system_dir]
    have h0 : pyFindFrom (a ++ "/" ++ b ++ "/" ++ c) '/' 0 =
        (a.toList.length : Int) := by
      rw [pyFindFrom, hdata, List.drop_zero,
        findIdx?_slash_append _ _ _ (toList_no_slash ha)]
      simp
    rw [h0]
    have hpos : (0 : Int) < (a.toList.length : Int) + 1 := by positivity
    rw [if_pos hpos]
    have htoNat : ((a.toList.length : Int) + 1).toNat = a.toList.length + 1 := by
      omega
    have hdrop : (a ++ "/" ++ b ++ "/" ++ c).toList.drop (a.toList.length + 1) =
        b.toList ++ '/' :: c.toList := by
      rw [hdata, show a.toList ++ '/' :: (b.toList ++ '/' :: c.toList) =
        (a.toList ++ ['/']) ++ (b.toList ++ '/' :: c.toList) by simp,
        show a.toList.length + 1 = (a.toList ++ ['/']).length by simp,
        List.drop_left]
    have h1 : pyFindFrom (a ++ "/" ++ b ++ "/" ++ c) '/'
        ((a.toList.length : Int) + 1).toNat =
        ((b.toList.length + (a.toList.length + 1) : Nat) : Int) := by
      rw [pyFindFrom, htoNat, hdrop,
        findIdx?_slash_append _ _ _ (toList_no_slash hb)]
      simp
    rw [h1]
    have hblen : 0 < b.toList.length := by
      rcases b with ⟨bl⟩
      cases bl with
      | nil => exact absurd rfl hbne
      | cons x t => simp [String.toList]
    rw [if_pos (by push_cast; omega)]
    rw [htoNat, hdrop]
    have harith :
        (((b.toList.length + (a.toList.length + 1) : Nat) : Int) -
          ((a.toList.length : Int) + 1)).toNat = b.toList.length := by
      push_cast
      omega
    rw [harith, List.take_left' rfl]
    rfl

/-- Witness for the amended C4 at the concrete paths of the counterexample
family. -/
theorem c4_amended_group_key_witness :
    get_system_dir "flat.txt" = "flat.txt" ∧
    get_system_dir ("a" ++ "/" ++ "b") = "a" ++ "/" ∧
    get_system_dir ("a" ++ "/" ++ "b" ++ "/" ++ "c.txt") = "b" :=
  c4_amended_group_key "a" "b" "c.txt" "flat.txt" (by decide) (by decide)
    (by decide) (by decide)

/-! ## Lemmas about the per-run parsing state -/

/-- `parse_file` never touches the stealer-name field. -/
theorem parse_file_stealer_name (env : ParseEnv) (file : LogFile)
    (text : String) (sd : SystemData) :
    (parse_file env file text sd).stealer_name = sd.stealer_name := by
  rw [parse_file]
  cases file.type
  · rfl
  · cases env.parse_system text
    · rfl
    · cases sd.system <;> dsimp only <;> split <;> rfl
  · rw [retrieve_ip_only]
    cases env.extract_ip text
    · rfl
    · cases sd.system <;> dsimp only <;> split <;> rfl
  · rfl

/-- Once a fingerprint is found it is never replaced. -/
theorem processRun_foldl_some (env : ParseEnv) :
    ∀ (run : List LogFile) (n : String) (sd : SystemData),
      (run.foldl (processRunStep env) (some n, sd)).1 = some n := by
  intro run
  induction run with
  | nil => intro n sd; rfl
  | cons f rest ih =>
    intro n sd
    rw [List.foldl_cons, processRunStep]
    cases env.read f.filename
    · exact ih n sd
    · exact ih n _

/-- The fingerprint accumulated over a run is the first match over the
texts read, in order. -/
theorem processRun_fst (env : ParseEnv) :
    ∀ (run : List LogFile) (sd : SystemData),
      (run.foldl (processRunStep env) (none, sd)).1 =
        (run.filterMap (fun f => env.read f.filename)).findSome?
          env.search_stealer_name := by
  intro run
  induction run with
  | nil => intro sd; rfl
  | cons f rest ih =>
    intro sd
    rw [List.foldl_cons, processRunStep, List.filterMap_cons]
    cases hr : env.read f.filename with
    | none => exact ih sd
    | some t =>
      rw [List.findSome?_cons]
      dsimp only
      cases hs : env.search_stealer_name t with
      | none => exact ih _
      | some n => exact processRun_foldl_some env rest n _

/-- The parse loop never sets the stealer-name field of the record. -/
theorem processRun_snd_stealer_name (env : ParseEnv) :
    ∀ (run : List LogFile) (sn : Option String) (sd : SystemData),
      sd.stealer_name = none →
      (run.foldl (processRunStep env) (sn, sd)).2.stealer_name = none := by
  intro run
  induction run with
  | nil => intro sn sd h; exact h
  | cons f rest ih =>
    intro sn sd h
    rw [List.foldl_cons, processRunStep]
    cases env.read f.filename
    · exact ih sn sd h
    · exact ih _ _ (by rw [parse_file_stealer_name]; exact h)

/-- A record appended to the leak passed the retention test. -/
theorem psdRecord_retained (env : ParseEnv) (run : List LogFile)
    (sd : SystemData) (h : psdRecord env run = some sd) :
    retainedB sd = true ∧
    (sd = (processRun env run).2 ∨
      ∃ n, (processRun env run).1 = some n ∧
        sd = (processRun env run).2.add_stealer_name n) := by
  rw [psdRecord] at h
  rcases hn : (processRun env run).1 with _ | n <;> rw [hn] at h <;>
    dsimp only at h
  · split at h
    · cases h
      exact ⟨by assumption, Or.inl rfl⟩
    · cases h
  · split at h
    · split at h
      · cases h
        exact ⟨by assumption, Or.inr ⟨n, rfl, rfl⟩⟩
      · cases h
    · split at h
      · cases h
        exact ⟨by assumption, Or.inl rfl⟩
      · cases h

/-- Boolean retention test unfolded to a proposition. -/
theorem retainedB_iff (sd : SystemData) :
    retainedB sd = true ↔
      (sd.credentials ≠ [] ∨ ∃ s, sd.system = some s ∧
        (s.ip_address ≠ "" ∨ ∃ a ∈ s.attrs, a ≠ "")) := by
  rw [retainedB]
  cases hs : sd.system with
  | none =>
    simp [hs, System.anyAttr, List.isEmpty_iff]
  | some s =>
    simp only [hs, Bool.or_eq_true, Bool.not_eq_true', List.isEmpty_eq_false,
      System.anyAttr, bne_iff_ne, ne_eq, List.any_eq_true, Option.some_inj]
    constructor
    · rintro (h | h)
      · rcases h with h | ⟨a, ha, hne⟩
        · exact Or.inr ⟨s, rfl, Or.inl h⟩
        · exact Or.inr ⟨s, rfl, Or.inr ⟨a, ha, hne⟩⟩
      · exact Or.inl h
    · rintro (h | ⟨t, hts, h⟩)
      · exact Or.inr h
      · cases hts
        rcases h with h | ⟨a, ha, hne⟩
        · exact Or.inl (Or.inl h)
        · exact Or.inl (Or.inr ⟨a, ha, hne⟩)

/-! ## Claim C5 -/

/-- **C5**: merge rule.  (a) In a group where a SystemInfo file (with a
non-empty parsed IP) is processed before an IPOnly file, the resulting
record keeps the SystemInfo IP and the IPOnly IP is discarded.  (b) A
freshly parsed SystemInfo never overwrites an IP already discovered earlier
in the group: whenever the state already holds a non-empty IP, the state
after parsing a SYSTEM file still holds that IP. -/
theorem c5_systeminfo_ip_wins (env : ParseEnv) :
    (∀ f1 f2 t1 t2 s,
      f1.type = .SYSTEM → f2.type = .IP →
      env.read f1.filename = some t1 → env.read f2.filename = some t2 →
      env.parse_system t1 = some s → s.ip_address ≠ "" →
      (processRun env [f1, f2]).2.system = some s) ∧
    (∀ file text sd s0 s',
      file.type = .SYSTEM → sd.system = some s0 → s0.ip_address ≠ "" →
      (parse_file env file text sd).system = some s' →
      s'.ip_address = s0.ip_address) := by
  constructor
  · intro f1 f2 t1 t2 s h1 h2 hr1 hr2 hps hip
    cases hext : env.extract_ip t2 with
    | none =>
      simp [processRun, processRunStep, parse_file, retrieve_ip_only,
        h1, h2, hr1, hr2, hps, hext]
    | some ip =>
      simp [processRun, processRunStep, parse_file, retrieve_ip_only,
        h1, h2, hr1, hr2, hps, hext, bne_iff_ne.mpr hip]
  · intro file text sd s0 s' h1 hsys hip hres
    cases hps : env.parse_system text with
    | none =>
      simp only [parse_file, h1, hps, hsys] at hres
      cases hres
      rfl
    | some system =>
      simp only [parse_file, h1, hps, hsys, bne_iff_ne.mpr hip, if_true] at hres
      cases hres
      rfl

/-- Sample environment for the C5 witness: one SystemInfo text parsing to IP
`10.0.0.5` and one IPOnly text extracting `8.8.8.8`. -/
def envC5 : ParseEnv where
  read := fun fn =>
    if fn = "V/sys.txt" then some "S" else if fn = "V/ip.txt" then some "I"
    else none
  search_stealer_name := fun _ => none
  parse_passwords := fun _ => []
  parse_system := fun t => if t = "S" then some ⟨"10.0.0.5", []⟩ else none
  extract_ip := fun t => if t = "I" then some "8.8.8.8" else none

/-- Witness for C5 at the claim's concrete scenario: SystemInfo IP
`10.0.0.5` survives the later IPOnly IP `8.8.8.8`, and a fresh SystemInfo
keeps a previously discovered IP `9.9.9.9`. -/
theorem c5_systeminfo_ip_wins_witness :
    (processRun envC5
      [⟨.SYSTEM, "V/sys.txt", "V/"⟩, ⟨.IP, "V/ip.txt", "V/"⟩]).2.system =
      some ⟨"10.0.0.5", []⟩ ∧
    (⟨"9.9.9.9", []⟩ : System).ip_address = "9.9.9.9" := by
  constructor
  · exact (c5_systeminfo_ip_wins envC5).1 ⟨.SYSTEM, "V/sys.txt", "V/"⟩
      ⟨.IP, "V/ip.txt", "V/"⟩ "S" "I" ⟨"10.0.0.5", []⟩ rfl rfl rfl rfl rfl
      (by decide)
  · exact (c5_systeminfo_ip_wins envC5).2 ⟨.SYSTEM, "V/sys.txt", "V/"⟩ "S"
      { system := some ⟨"9.9.9.9", []⟩ } ⟨"9.9.9.9", []⟩ ⟨"9.9.9.9", []⟩ rfl
      rfl (by decide) rfl

/-! ## Claim C6 -/

/-- **C6**: retention rule.  (a) Every record in the leak produced by the
processing loop has at least one credential or a system record with a
non-empty attribute.  (b) A group producing zero credentials and an
all-empty (or absent) system record is dropped: it contributes no record,
and the leak for the whole list equals the leak for the remaining groups. -/
theorem c6_retention_rule (env : ParseEnv) :
    (∀ files sd, sd ∈ processGroups env files →
      sd.credentials ≠ [] ∨ ∃ s, sd.system = some s ∧
        (s.ip_address ≠ "" ∨ ∃ a ∈ s.attrs, a ≠ "")) ∧
    (∀ f rest,
      (processRun env (runOf f rest)).2.credentials = [] →
      (∀ s, (processRun env (runOf f rest)).2.system = some s →
        s.ip_address = "" ∧ ∀ a ∈ s.attrs, a = "") →
      psdRecord env (runOf f rest) = none ∧
      processGroups env (f :: rest) =
        processGroups env
          (rest.dropWhile (fun x => x.system_dir == f.system_dir))) := by
  constructor
  · intro files
    induction files using groupVictims.induct with
    | case1 => intro sd h; simp [processGroups] at h
    | case2 f rest ih =>
      intro sd h
      rw [processGroups] at h
      rcases hp : psdRecord env (runOf f rest) with _ | r <;> rw [hp] at h
      · exact ih sd h
      · rcases List.mem_cons.mp h with rfl | h2
        · exact (retainedB_iff sd).mp (psdRecord_retained env _ sd hp).1
        · exact ih sd h2
  · intro f rest hcred hsys
    have hnone : psdRecord env (runOf f rest) = none := by
      rw [psdRecord]
      rcases (processRun env (runOf f rest)).1 with _ | n <;> dsimp only
      · rw [if_neg]
        intro hret
        rcases (retainedB_iff _).mp hret with h | ⟨s, hs, hne⟩
        · exact h hcred
        · rcases hne with hne | ⟨a, ha, hane⟩
          · exact hne (hsys s hs).1
          · exact hane ((hsys s hs).2 a ha)
      · rw [if_neg (show
            ¬((!(processRun env (runOf f rest)).2.credentials.isEmpty) = true)
            by simp [hcred])]
        rw [if_neg]
        intro hret
        rcases (retainedB_iff _).mp hret with h | ⟨s, hs, hne⟩
        · exact h hcred
        · rcases hne with hne | ⟨a, ha, hane⟩
          · exact hne (hsys s hs).1
          · exact hane ((hsys s hs).2 a ha)
    refine ⟨hnone, ?_⟩
    rw [processGroups, hnone]

/-- Sample environment for the C6 witness: every read yields text `"T"`,
the password parser yields one credential, everything else nothing. -/
def envC6 : ParseEnv where
  read := fun _ => some "T"
  search_stealer_name := fun _ => none
  parse_passwords := fun _ => [⟨"h", "l", "p"⟩]
  parse_system := fun _ => none
  extract_ip := fun _ => none

/-- Sample environment for the C6 witness drop case: reads fail, so the
group accumulates nothing. -/
def envC6drop : ParseEnv where
  read := fun _ => none
  search_stealer_name := fun _ => none
  parse_passwords := fun _ => []
  parse_system := fun _ => none
  extract_ip := fun _ => none

/-- Witness for C6: the record produced by a one-credential group is
retained and has a credential; a group that reads nothing is dropped. -/
theorem c6_retention_rule_witness :
    ((⟨none, [⟨"h", "l", "p"⟩], none⟩ : SystemData).credentials ≠ [] ∨
      ∃ s, (⟨none, [⟨"h", "l", "p"⟩], none⟩ : SystemData).system = some s ∧
        (s.ip_address ≠ "" ∨ ∃ a ∈ s.attrs, a ≠ "")) ∧
    psdRecord envC6drop (runOf ⟨.PASSWORDS, "V/p.txt", "V/"⟩ []) = none := by
  have hpg : processGroups envC6 [⟨.PASSWORDS, "V/p.txt", "V/"⟩] =
      [⟨none, [⟨"h", "l", "p"⟩], none⟩] := by
    rw [processGroups]
    rw [show (([] : List LogFile).dropWhile
      (fun x => x.system_dir ==
        (⟨.PASSWORDS, "V/p.txt", "V/"⟩ : LogFile).system_dir)) = []
      from rfl]
    rw [processGroups]
    rfl
  constructor
  · exact (c6_retention_rule envC6).1 [⟨.PASSWORDS, "V/p.txt", "V/"⟩]
      ⟨none, [⟨"h", "l", "p"⟩], none⟩ (by rw [hpg]; exact List.mem_singleton.mpr rfl)
  · exact ((c6_retention_rule envC6drop).2 ⟨.PASSWORDS, "V/p.txt", "V/"⟩ []
      rfl (by intro s h; cases h)).1

/-! ## Claim C7 -/

/-- **C7**: fingerprint attachment.  For every retained record: its stealer
name is `none` when the record has no credential (even if a signature
matched), and otherwise it is exactly the first match of the fingerprint
scanner over the texts read for the group, in file order — so the
fingerprint comes from the first text that yields a match and is never
replaced by a later match. -/
theorem c7_fingerprint_attachment (env : ParseEnv) (run : List LogFile)
    (sd : SystemData) (h : psdRecord env run = some sd) :
    sd.stealer_name =
      if sd.credentials.isEmpty then none
      else (run.filterMap (fun f => env.read f.filename)).findSome?
        env.search_stealer_name := by
  have hfst : (processRun env run).1 =
      (run.filterMap (fun f => env.read f.filename)).findSome?
        env.search_stealer_name := processRun_fst env run {}
  have hsn : (processRun env run).2.stealer_name = none :=
    processRun_snd_stealer_name env run none {} rfl
  rw [psdRecord] at h
  rcases hn : (processRun env run).1 with _ | n <;> rw [hn] at h <;>
    dsimp only at h
  · split at h
    · cases h
      rw [hsn]
      split
      · rfl
      · rw [← hfst, hn]
    · cases h
  · by_cases hc : (processRun env run).2.credentials.isEmpty
    · rw [if_neg (show
          ¬((!(processRun env run).2.credentials.isEmpty) = true) by
          simp [hc])] at h
      split at h
      · cases h
        rw [hsn, if_pos hc]
      · cases h
    · rw [if_pos (show
          (!(processRun env run).2.credentials.isEmpty) = true by
          simp [hc])] at h
      split at h
      · cases h
        rw [SystemData.add_stealer_name]
        dsimp only
        rw [if_neg hc, ← hfst, hn]
      · cases h

/-- Sample environment for the C7 witness: every text fingerprints to
`"RedLine"` and the password parser yields one credential. -/
def envC7 : ParseEnv where
  read := fun _ => some "T"
  search_stealer_name := fun t => if t = "T" then some "RedLine" else none
  parse_passwords := fun _ => [⟨"h", "l", "p"⟩]
  parse_system := fun _ => none
  extract_ip := fun _ => none

/-- Witness for C7: a record with one credential carries the first (and
only) fingerprint match. -/
theorem c7_fingerprint_attachment_witness :
    (⟨none, [⟨"h", "l", "p"⟩], some "RedLine"⟩ : SystemData).stealer_name =
      if (⟨none, [⟨"h", "l", "p"⟩], some "RedLine"⟩
          : SystemData).credentials.isEmpty
      then none
      else (([⟨.PASSWORDS, "V/p.txt", "V/"⟩] : List LogFile).filterMap
        (fun f => envC7.read f.filename)).findSome?
        envC7.search_stealer_name :=
  c7_fingerprint_attachment envC7 [⟨.PASSWORDS, "V/p.txt", "V/"⟩]
    ⟨none, [⟨"h", "l", "p"⟩], some "RedLine"⟩ rfl

/-! ## Text decoding (`models/archive_wrapper.py`, lines 86-110)

`read_file` decodes the entry bytes with `bytes.decode("utf-8")`, falling
back to `bytes.decode("utf-8", errors="ignore")` on `UnicodeDecodeError`,
then replaces every NUL character by the three characters `\\00`
(backslash, `0`, `0`).  The decoders below model CPython's UTF-8 codec:
strict decoding rejects invalid bytes, overlong forms, surrogates and
out-of-range code points; the `ignore` handler drops each maximal invalid
subpart and continues. -/

/-- UTF-8 continuation byte. -/
def isCont (b : Nat) : Bool := 0x80 ≤ b && b ≤ 0xBF

/-- Allowed second byte after lead `b` of a three-byte sequence (excludes
overlong forms after `0xE0` and surrogates after `0xED`). -/
def cont2Ok (b b2 : Nat) : Bool :=
  if b = 0xE0 then 0xA0 ≤ b2 && b2 ≤ 0xBF
  else if b = 0xED then 0x80 ≤ b2 && b2 ≤ 0x9F
  else isCont b2

/-- Allowed second byte after lead `b` of a four-byte sequence (excludes
overlong forms after `0xF0` and > U+10FFFF after `0xF4`). -/
def cont3Ok (b b2 : Nat) : Bool :=
  if b = 0xF0 then 0x90 ≤ b2 && b2 ≤ 0xBF
  else if b = 0xF4 then 0x80 ≤ b2 && b2 ≤ 0x8F
  else isCont b2

/-- Decode one UTF-8 sequence with lead byte `b` and remaining bytes `r`:
`(some codepoint, extra)` on success where `extra` is the number of
continuation bytes consumed, `(none, extra)` on failure where `extra` is
the length of the maximal valid subpart after the lead (the bytes the
`ignore` handler skips along with the lead). -/
def utf8One (b : Nat) (r : List Nat) : Option Nat × Nat :=
  if b ≤ 0x7F then (some b, 0)
  else if 0xC2 ≤ b && b ≤ 0xDF then
    match r with
    | b2 :: _ =>
      if isCont b2 then (some ((b - 0xC0) * 64 + (b2 - 0x80)), 1)
      else (none, 0)
    | [] => (none, 0)
  else if 0xE0 ≤ b && b ≤ 0xEF then
    match r with
    | b2 :: b3 :: _ =>
      if cont2Ok b b2 then
        if isCont b3 then
          (some ((b - 0xE0) * 4096 + (b2 - 0x80) * 64 + (b3 - 0x80)), 2)
        else (none, 1)
      else (none, 0)
    | [b2] => if cont2Ok b b2 then (none, 1) else (none, 0)
    | [] => (none, 0)
  else if 0xF0 ≤ b && b ≤ 0xF4 then
    match r with
    | b2 :: b3 :: b4 :: _ =>
      if cont3Ok b b2 then
        if isCont b3 then
          if isCont b4 then
            (some ((b - 0xF0) * 262144 + (b2 - 0x80) * 4096 +
              (b3 - 0x80) * 64 + (b4 - 0x80)), 3)
          else (none, 2)
        else (none, 1)
      else (none, 0)
    | [b2, b3] =>
      if cont3Ok b b2 then
        if isCont b3 then (none, 2) else (none, 1)
      else (none, 0)
    | [b2] => if cont3Ok b b2 then (none, 1) else (none, 0)
    | [] => (none, 0)
  else (none, 0)

/-- Strict UTF-8 decoding: `bytes.decode("utf-8")`, `none` models the
raised `UnicodeDecodeError`. -/
def utf8DecodeStrict : List Nat → Option (List Char)
  | [] => some []
  | b :: r =>
    match utf8One b r with
    | (some cp, k) =>
      (utf8DecodeStrict (r.drop k)).map (fun cs => Char.ofNat cp :: cs)
    | (none, _) => none
termination_by l => l.length
decreasing_by
  simp only [List.length_cons, List.length_drop]
  omega

/-- Lenient UTF-8 decoding: `bytes.decode("utf-8", errors="ignore")` — on
an invalid sequence the lead byte and the maximal valid subpart are
skipped. -/
def utf8DecodeIgnore : List Nat → List Char
  | [] => []
  | b :: r =>
    match utf8One b r with
    | (some cp, k) => Char.ofNat cp :: utf8DecodeIgnore (r.drop k)
    | (none, k) => utf8DecodeIgnore (r.drop k)
termination_by l => l.length
decreasing_by
  all_goals simp only [List.length_cons, List.length_drop]
  all_goals omega

/-- `text.replace("\\x00", "\\\\00")`: every NUL character becomes the three
characters backslash, `0`, `0`. -/
def replaceNul : List Char → List Char
  | [] => []
  | c :: cs =>
    if c = Char.ofNat 0 then '\\' :: '0' :: '0' :: replaceNul cs
    else c :: replaceNul cs

/-- The decoding pipeline of `ArchiveWrapper.read_file` on the raw entry
bytes: try strict UTF-8, fall back to the `ignore` decoder, then escape
NULs. -/
def read_file_decode (bytes : List Nat) : String :=
  let chars :=
    match utf8DecodeStrict bytes with
    | some cs => cs
    | none => utf8DecodeIgnore bytes
  String.mk (replaceNul chars)

theorem replaceNul_no_nul : ∀ cs : List Char,
    ((replaceNul cs).contains (Char.ofNat 0)) = false := by
  intro cs
  induction cs with
  | nil => rfl
  | cons c t ih =>
    rw [replaceNul]
    split
    · simpa using ih
    · rename_i hc
      simp only [List.contains_cons, Bool.or_eq_false_iff]
      exact ⟨by simpa [beq_iff_eq] using fun h => hc h.symm, ih⟩

/-! ## Claim C8 -/

/-- **C8 (counterexample)**: the NUL escape is *three* characters
(backslash, `0`, `0`), not two: decoding the single byte `0x00` yields the
three-character string `\\00`. -/
theorem c8_counterexample_escape_length :
    read_file_decode [0] = "\\00" ∧ (read_file_decode [0]).length ≠ 2 := by
  have h : read_file_decode [0] = "\\00" := by
    simp +decide [read_file_decode, utf8DecodeStrict, utf8One, replaceNul]
  exact ⟨h, by rw [h]; decide⟩

/-- **C8 (amended)**: decoding is total — strict UTF-8 first, then the
`ignore` fallback which *drops* invalid bytes (rather than substituting
them) — and every NUL in the decoded text is replaced by the
three-character escape `\\00`, so the returned text never contains a NUL
character. -/
theorem c8_decode_total_no_nul :
    (∀ bytes : List Nat,
      ((read_file_decode bytes).toList.contains (Char.ofNat 0)) = false) ∧
    read_file_decode [0x61, 0xFF, 0x62] = "ab" := by
  constructor
  · intro bytes
    rw [read_file_decode]
    exact replaceNul_no_nul _
  · simp +decide [read_file_decode, utf8DecodeStrict, utf8DecodeIgnore,
      utf8One, replaceNul]

/-! ## Batch orchestration (`main.py`)

The filesystem is modelled as the list of existing file paths
(slash-separated strings).  `move_file`, `process_single_archive` and the
password-retry loop of `retry_failed_archives` are translated from
`main.py`; the per-archive open/parse behaviour (which depends on the
archive bytes and libraries) is a parameter `PsaEnv`. -/

/-- `Path(p).name`: the component after the last separator. -/
def pathName (p : String) : String :=
  match (p.toList.reverse).findIdx? (· == '/') with
  | some k => String.mk ((p.toList.reverse.take k).reverse)
  | none => p

/-- `Path(name).stem` and `.suffix`: split the name at its last dot, when
that dot is not the leading character. -/
def stemSuffix (n : String) : String × String :=
  match ((n.toList.drop 1).reverse).findIdx? (· == '.') with
  | some k =>
    let dotPos := n.toList.length - 1 - k
    (String.mk (n.toList.take dotPos), String.mk (n.toList.drop dotPos))
  | none => (n, "")

/-- The destination-collision loop of `move_file` (lines 34-41): append
`_1`, `_2`, ... to the stem until the destination does not exist.  `fuel`
bounds the search; `|fs| + 1` candidates always suffice because the
candidate names are pairwise distinct. -/
def freeDest (fs : List String) (destDir stem suffix : String) :
    Nat → Nat → String
  | counter, 0 => destDir ++ "/" ++ stem ++ "_" ++ toString counter ++ suffix
  | counter, fuel + 1 =>
    let d := destDir ++ "/" ++ stem ++ "_" ++ toString counter ++ suffix
    if fs.contains d then freeDest fs destDir stem suffix (counter + 1) fuel
    else d

/-- `move_file(file_path, destination_dir)` from `main.py` (lines 31-49):
pick a collision-free destination name, then `shutil.move`; a missing
source makes the move raise, which is caught and reported as `false` with
the filesystem unchanged. -/
def move_file (fs : List String) (src destDir : String) :
    Bool × List String :=
  if fs.contains src then
    let name := pathName src
    let p := stemSuffix name
    let d0 := destDir ++ "/" ++ name
    let dest :=
      if fs.contains d0 then freeDest fs destDir p.1 p.2 1 (fs.length + 1)
      else d0
    (true, dest :: fs.erase src)
  else (false, fs)

/-- The per-archive behaviour `process_single_archive` observes, as
parameters: whether `is_password_protected` reports the (existing) file
protected, the outcome of open-plus-`process_archive` for a given password
(`.error` models any exception raised and caught, `.ok` the retained
records of the leak), whether an output file is configured, and whether
`update_json_file` succeeds. -/
structure PsaEnv where
  isProtected : Bool
  parseOf : Option String → Except Unit (List SystemData)
  outputConfigured : Bool
  writeOk : Bool

/-- Python truthiness of the optional password string. -/
def pwFalsy : Option String → Bool
  | none => true
  | some s => s = ""

/-- Result of one `process_single_archive` call: the returned flag, the
filesystem afterwards, and the directory the `finally` block moved the
archive into (`none` when the bucket directories are not configured). -/
structure PsaOut where
  success : Bool
  fs : List String
  bucketDir : Option String
deriving DecidableEq, Repr

/-- `process_single_archive` from `main.py` (lines 148-193).
Control flow: with a falsy password and a protected (or unreadable) file,
move to the failed bucket and return `False` (the `finally` block then
tries a second move of the now-stale path); otherwise open the file (a
missing file raises, caught by `except Exception`), run the pipeline, set
`success` only when an output file is configured, the leak is non-empty
and the JSON update succeeds; finally, when both bucket directories are
configured, move the archive into the success or failed bucket. -/
def process_single_archive (env : PsaEnv) (fs : List String)
    (filepath : String) (password : Option String)
    (success_dir failed_dir : Option String) : PsaOut :=
  if pwFalsy password &&
      (if fs.contains filepath then env.isProtected else true) then
    let fs1 :=
      match failed_dir with
      | some fd => (move_file fs filepath fd).2
      | none => fs
    match success_dir, failed_dir with
    | some _, some fd =>
      ⟨false, (move_file fs1 filepath fd).2, some fd⟩
    | _, _ => ⟨false, fs1, none⟩
  else
    let success :=
      if fs.contains filepath then
        match env.parseOf password with
        | .ok systems =>
          env.outputConfigured && !systems.isEmpty && env.writeOk
        | .error _ => false
      else false
    match success_dir, failed_dir with
    | some sd, some fd =>
      let dir := if success then sd else fd
      ⟨success, (move_file fs filepath dir).2, some dir⟩
    | _, _ => ⟨success, fs, none⟩

/-- The password loop of `retry_failed_archives` (lines 101-113): try each
candidate in order with the whole per-archive pipeline, stopping at the
first success.  Returns the final flag, the filesystem, and the list of
candidates actually tried. -/
def retryPasswords (env : PsaEnv) (fs : List String) (filepath : String)
    (success_dir failed_dir : String) :
    List String → Bool × List String × List String
  | [] => (false, fs, [])
  | p :: ps =>
    let out := process_single_archive env fs filepath (some p)
      (some success_dir) (some failed_dir)
    if out.success then (true, out.fs, [p])
    else
      let rest := retryPasswords env out.fs filepath success_dir failed_dir ps
      (rest.1, rest.2.1, p :: rest.2.2)

/-! ## Claim C9 -/

/-- **C9** (code bug): the password retry loop cannot succeed after a
failed first attempt.  For an archive in the failed bucket that parses
(with a non-empty leak) exactly under password `"abc123"`, the candidate
list `["wrong1", "abc123", "wrong2"]` fails entirely: the first attempt's
`finally` block moves the archive *within* the failed bucket under the
collision-renamed name `x_1.rar`, so the second attempt opens the stale
path, raises, and fails — all three candidates are tried and none
succeeds.  The second conjunct shows the same archive *would* succeed with
`"abc123"` while still at its original path, so the loop itself (not the
password) is at fault. -/
theorem c9_password_retry_never_succeeds :
    retryPasswords
      ⟨true,
       fun pw => if pw = some "abc123"
         then .ok [⟨none, [⟨"h", "l", "p"⟩], none⟩] else .error (),
       true, true⟩
      ["processed_failed/x.rar"] "processed_failed/x.rar"
      "processed_success" "processed_failed"
      ["wrong1", "abc123", "wrong2"] =
      (false, ["processed_failed/x_1.rar"],
        ["wrong1", "abc123", "wrong2"]) ∧
    (process_single_archive
      ⟨true,
       fun pw => if pw = some "abc123"
         then .ok [⟨none, [⟨"h", "l", "p"⟩], none⟩] else .error (),
       true, true⟩
      ["processed_failed/x.rar"] "processed_failed/x.rar" (some "abc123")
      (some "processed_success") (some "processed_failed")).success
      = true := by
  exact ⟨rfl, rfl⟩

/-! ## Claim C10 -/

/-- **C10**: `process_single_archive` (with both bucket directories
configured) reports success only when an output file is configured, the
archive file exists, and the pipeline produced a non-empty list of victim
records — and then the `finally` move targets the success bucket.
Conversely, with no output file configured, or a pipeline that runs
without error but yields zero records, the call always returns `false` and
the archive is moved to the failed bucket. -/
theorem c10_success_requires_output_and_records (env : PsaEnv)
    (fs : List String) (filepath : String) (password : Option String)
    (sdir fdir : String) :
    ((process_single_archive env fs filepath password (some sdir)
        (some fdir)).success = true →
      env.outputConfigured = true ∧ fs.contains filepath = true ∧
      (∃ systems, env.parseOf password = .ok systems ∧ systems ≠ []) ∧
      (process_single_archive env fs filepath password (some sdir)
        (some fdir)).bucketDir = some sdir) ∧
    (env.outputConfigured = false ∨ env.parseOf password = .ok [] →
      (process_single_archive env fs filepath password (some sdir)
        (some fdir)).success = false ∧
      (process_single_archive env fs filepath password (some sdir)
        (some fdir)).bucketDir = some fdir) := by
  by_cases hprot : (pwFalsy password &&
      (if fs.contains filepath then env.isProtected else true)) = true
  · rw [process_single_archive, if_pos hprot]
    dsimp only
    exact ⟨fun h => by simp at h, fun _ => ⟨rfl, rfl⟩⟩
  · rw [process_single_archive, if_neg hprot]
    dsimp only
    by_cases hc : fs.contains filepath
    · rw [if_pos hc]
      cases hpp : env.parseOf password with
      | error e =>
        refine ⟨fun h => by simp at h, fun _ => ⟨rfl, rfl⟩⟩
      | ok systems =>
        constructor
        · intro h
          dsimp only at h
          have h3 := h
          rw [Bool.and_eq_true, Bool.and_eq_true] at h3
          obtain ⟨⟨hout, hne⟩, hw⟩ := h3
          refine ⟨hout, hc, ⟨systems, rfl, ?_⟩, ?_⟩
          · intro hnil
            rw [hnil] at hne
            simp at hne
          · dsimp only
            rw [if_pos h]
        · intro hcase
          have hfalse : (env.outputConfigured && !systems.isEmpty &&
              env.writeOk) = false := by
            rcases hcase with hout | hok
            · rw [hout]; rfl
            · cases hok
              simp
          dsimp only
          rw [hfalse]
          exact ⟨rfl, by rw [if_neg (by simp)]⟩
    · rw [if_neg hc]
      refine ⟨fun h => by simp at h, fun _ => ⟨rfl, rfl⟩⟩

/-- Witness for C10: an archive that parses without error but yields zero
records is reported failed and bucketed to the failed directory. -/
theorem c10_success_requires_output_and_records_witness :
    (process_single_archive ⟨true, fun _ => .ok [], true, true⟩
      ["d/x.zip"] "d/x.zip" (some "pw") (some "s") (some "f")).success
      = false ∧
    (process_single_archive ⟨true, fun _ => .ok [], true, true⟩
      ["d/x.zip"] "d/x.zip" (some "pw") (some "s") (some "f")).bucketDir
      = some "f" :=
  (c10_success_requires_output_and_records
    ⟨true, fun _ => .ok [], true, true⟩ ["d/x.zip"] "d/x.zip"
    (some "pw") "s" "f").2 (Or.inr rfl)

end StealerParser
